import Mathlib

/-!
Verification of the frame_assault combat core: a shallow embedding of the
mech / weapon / movement modules, with theorems settling the spec claims.

Modelling conventions:
* Go `int` is embedded as `Int` (no claim in scope exercises 64-bit wraparound).
* Go `float64` values (hit-probability draws, movement accumulators) are
  embedded as exact rationals `ℚ`; the discrete comparisons the code performs
  on them (`<=`, `>=`, equality with literals 0, 0.1, 1.0) are exact at the
  values the claims quantify over.
* The wall-clock-seeded random sources are replaced by explicitly injected
  draws: a per-shot uniform value `u : ℚ` for `Weapon.Fire`, and a
  re-roll flag plus drawn direction for `RandomWalkStrategy`.  A direction
  angle is represented by the pair of its unit components (its cosine and
  sine), which is the only form in which the Go code ever consumes it.
* Side effects on the notifier (`AddMessage`) are returned as a `List String`
  of emitted messages; the game log and the on-screen bullet entity are
  rendering concerns with no effect on any state the claims mention.
-/

namespace FrameAssault

/-- Go constant `maxLevelWidth = 60` (declared identically in mech/mech.go
and in mech/movement/strategy.go). -/
def maxLevelWidth : Int := 60

/-- Go constant `maxLevelHeight = 40` (mech/mech.go and movement/strategy.go). -/
def maxLevelHeight : Int := 40

/-- Go constant `minCoordinate = -maxLevelWidth` (mech/mech.go and
movement/strategy.go). -/
def minCoordinate : Int := -maxLevelWidth

/-- Go constant `moveStep = 0.1` from movement/strategy.go. -/
def moveStep : ℚ := 1/10

/-- Go constant `minStepThreshold = 1.0` from movement/strategy.go. -/
def minStepThreshold : ℚ := 1

/-- Go constant `directionChangeChance = 0.1` from movement/strategy.go;
the random-walk re-roll input below stands for `rng.Float64() < 0.1`. -/
def directionChangeChance : ℚ := 1/10

/-- util.CalculateDistance from util (Manhattan distance).  The Go function
returns `math.Abs(float64(x2-x1)) + math.Abs(float64(y2-y1))` as a float64,
which is exact on integer inputs of this magnitude; the caller in
mech.go casts it back with `(int)`, recovering exactly this integer. -/
def CalculateDistance (x1 y1 x2 y2 : Int) : Int :=
  |x2 - x1| + |y2 - y1|

/-- Weapon from mech/weapon/weapon.go.  `level` is omitted: it is only used
to spawn a visual bullet entity, which touches no target state. -/
structure Weapon where
  maxRange : Int
  damage : Int
  name : String
  hitRate : ℚ
  sourceX : Int
  sourceY : Int
deriving Repr, DecidableEq

/-- weapon.Create: builds a Weapon; `sourceX`/`sourceY` start at Go zero values. -/
def Weapon.Create (maxRange damage : Int) (name : String) (hitRate : ℚ) : Weapon :=
  ⟨maxRange, damage, name, hitRate, 0, 0⟩

/-- weapon.SetPosition. -/
def Weapon.SetPosition (w : Weapon) (x y : Int) : Weapon :=
  { w with sourceX := x, sourceY := y }

/-- Mech from mech/mech.go.  The embedded `tl.Entity` contributes only the
position `(x, y)`; `structure'` is the Go field `structure` (a Lean keyword).
The struct stores no destroyed flag, mirroring the source. -/
structure Mech where
  structure' : Int
  maxStructure : Int
  name : String
  x : Int
  y : Int
  prevX : Int
  prevY : Int
  weapons : List Weapon
deriving Repr, DecidableEq

/-- mech.NewMech: full structure at creation; `prevX`/`prevY` are Go
zero-initialized and first set by `Tick`. -/
def NewMech (name : String) (maxStructure x y : Int) : Mech :=
  ⟨maxStructure, maxStructure, name, x, y, 0, 0, []⟩

/-- mech.Hit: no-op when structure is already non-positive; otherwise
subtracts the damage unconditionally and emits the notifier messages
("takes", and "destroyed" when the result is non-positive). -/
def Mech.Hit (m : Mech) (damage : Int) : Mech × List String :=
  if m.structure' ≤ 0 then (m, [])
  else
    let m' := { m with structure' := m.structure' - damage }
    if m'.structure' ≤ 0 then
      (m', [m.name ++ " takes " ++ toString damage, m.name ++ " has been destroyed"])
    else
      (m', [m.name ++ " takes " ++ toString damage])

/-- mech.IsDestroyed: recomputed from `structure` on every query. -/
def Mech.IsDestroyed (m : Mech) : Bool :=
  decide (m.structure' ≤ 0)

/-- mech.StructureLeft. -/
def Mech.StructureLeft (m : Mech) : Int :=
  m.structure'

/-- Applies a sequence of `Hit` calls (the reachable-state closure the spec
quantifies over), discarding the emitted messages. -/
def applyHits (m : Mech) (ds : List Int) : Mech :=
  ds.foldl (fun acc d => (acc.Hit d).1) m

/-- weapon.Fire: out-of-range shots return false with no effect; in-range
shots compare the uniform draw `u` against the hit rate (`chance <= hitRate`
in the source) and apply `Hit(damage)` on success.  The bullet spawned on
every in-range shot is a rendering entity and touches no target state. -/
def Weapon.Fire (w : Weapon) (rangeToTarget : Int) (target : Mech) (u : ℚ) :
    Bool × Mech × List String :=
  if rangeToTarget ≤ w.maxRange then
    if u ≤ w.hitRate then
      let hres := target.Hit w.damage
      (true, hres.1, hres.2)
    else
      (false, target, [])
  else
    (false, target, [])

/-- Loop body of mech.Fire: fires each weapon in loadout order at the target,
threading the target state, collecting notifier messages ("Missed ..." on a
false result) and the trace of `Fire(range, target)` invocations as
(weapon name, range) pairs.  `us` supplies the per-shot uniform draws
(the Go code builds a fresh time-seeded source per shot). -/
def fireWeapons (x y : Int) (ws : List Weapon) (rangeToTarget : Int) (target : Mech)
    (us : ℕ → ℚ) (i : ℕ) : Mech × List String × List (String × Int) :=
  match ws with
  | [] => (target, [], [])
  | w :: rest =>
    let w' := w.SetPosition x y
    let res := w'.Fire rangeToTarget target (us i)
    let missEvents := if res.1 then [] else ["Missed " ++ target.name]
    let tail := fireWeapons x y rest rangeToTarget res.2.1 us (i + 1)
    (tail.1, res.2.2 ++ missEvents ++ tail.2.1, (w.name, rangeToTarget) :: tail.2.2)

/-- mech.Fire: positions each weapon at the mech's current cell and fires it. -/
def Mech.Fire (m : Mech) (rangeToTarget : Int) (target : Mech) (us : ℕ → ℚ) :
    Mech × List String × List (String × Int) :=
  fireWeapons m.x m.y m.weapons rangeToTarget target us 0

/-- mech.attack: nil and destroyed targets are silent no-ops; otherwise the
range is the Manhattan distance from the attacker's previous-tick position to
the target's current position, and every weapon is fired at that range. -/
def Mech.attack (m : Mech) (target : Option Mech) (us : ℕ → ℚ) :
    Option Mech × List String × List (String × Int) :=
  match target with
  | none => (none, [], [])
  | some t =>
    if t.IsDestroyed then (some t, [], [])
    else
      let distance := CalculateDistance m.prevX m.prevY t.x t.y
      let res := m.Fire distance t us
      (some res.1, res.2.1, res.2.2)

/-- One tracked entity of the level, as seen by mech.isValidMove: an identity
(to recognize the moving actor's own entity), whether it implements
tl.Physical, and its cell.  A nil `tl.Game`/`tl.BaseLevel` corresponds to an
empty entity list. -/
structure Entity where
  id : ℕ
  physical : Bool
  x : Int
  y : Int
deriving Repr, DecidableEq

/-- mech.isValidMove: rejects out-of-bounds cells, then scans the level's
entities and rejects the cell if a non-self physical entity occupies it.
The Go method only reads state (its writes are log lines). -/
def Mech.isValidMove (selfId : ℕ) (entities : List Entity) (newX newY : Int) : Bool :=
  if newX < minCoordinate ∨ newX > maxLevelWidth ∨
      newY < minCoordinate ∨ newY > maxLevelHeight then
    false
  else
    entities.all fun e =>
      decide (e.id = selfId) || !e.physical || !(decide (e.x = newX) && decide (e.y = newY))

/-- Go math.Round: rounds half away from zero, here on the exact rational
standing for the float. -/
def mathRound (q : ℚ) : ℤ :=
  if 0 ≤ q then ⌊q + 1/2⌋ else -⌊-q + 1/2⌋

/-- Shared accumulator-to-displacement conversion appearing verbatim in both
strategies (movement/strategy.go `accumulateSteps` / `getIntegerSteps`):
once the accumulated magnitude reaches `minStepThreshold`, the rounded
integer part is emitted and subtracted from the accumulator. -/
def convertAxis (a : ℚ) : ℚ × ℤ :=
  if minStepThreshold ≤ |a| then (a - (mathRound a : ℚ), mathRound a) else (a, 0)

/-- RandomWalkStrategy from movement/strategy.go.  The direction angle is
represented by its unit components `(dirX, dirY) = (cos θ, sin θ)`, the only
form in which the code consumes it; `stepX`/`stepY` are the fractional step
accumulators.  The `sync.Mutex` guards a single-threaded call pattern and has
no value-level content. -/
structure RandomWalkStrategy where
  dirX : ℚ
  dirY : ℚ
  stepX : ℚ
  stepY : ℚ
deriving Repr, DecidableEq

/-- movement.NewRandomWalkStrategy: direction angle 0 (unit components (1,0)),
both accumulators zero. -/
def NewRandomWalkStrategy : RandomWalkStrategy :=
  ⟨1, 0, 0, 0⟩

/-- RandomWalkStrategy.updateDirection: when both accumulators are exactly
zero, or the re-roll draw fires (`rng.Float64() < directionChangeChance`,
passed in as `reroll`), the direction is re-drawn and BOTH accumulators are
reinitialized to the new direction's unit components times `moveStep`. -/
def RandomWalkStrategy.updateDirection (s : RandomWalkStrategy) (reroll : Bool)
    (newDirX newDirY : ℚ) : RandomWalkStrategy :=
  if (s.stepX = 0 ∧ s.stepY = 0) ∨ reroll = true then
    ⟨newDirX, newDirY, newDirX * moveStep, newDirY * moveStep⟩
  else s

/-- RandomWalkStrategy.accumulateSteps: adds the directional increment to each
accumulator and converts threshold-reaching magnitudes to integer moves. -/
def RandomWalkStrategy.accumulateSteps (s : RandomWalkStrategy) :
    RandomWalkStrategy × ℤ × ℤ :=
  let ax := convertAxis (s.stepX + s.dirX * moveStep)
  let ay := convertAxis (s.stepY + s.dirY * moveStep)
  (⟨s.dirX, s.dirY, ax.1, ay.1⟩, ax.2, ay.2)

/-- RandomWalkStrategy.NextMove: updateDirection, accumulateSteps, and the
displaced position (movement/strategy.go applies no clamping here). -/
def RandomWalkStrategy.NextMove (s : RandomWalkStrategy) (currentX currentY : Int)
    (reroll : Bool) (newDirX newDirY : ℚ) : RandomWalkStrategy × Int × Int :=
  let s1 := s.updateDirection reroll newDirX newDirY
  let r := s1.accumulateSteps
  (r.1, currentX + r.2.1, currentY + r.2.2)

/-- PatrolStrategy from movement/strategy.go. -/
structure PatrolStrategy where
  points : List (Int × Int)
  currPoint : ℕ
  stepX : ℚ
  stepY : ℚ
  targetX : Int
  targetY : Int
deriving Repr, DecidableEq

/-- movement.validatePoint: the Go error value is modelled as
`Option String` (`none` = nil error). -/
def validatePoint (x y : Int) : Option String :=
  if x < minCoordinate ∨ x > maxLevelWidth then
    some "x coordinate is out of bounds"
  else if y < minCoordinate ∨ y > maxLevelHeight then
    some "y coordinate is out of bounds"
  else
    none

/-- First failing `validatePoint` result over the point list, mirroring the
validation loop of NewPatrolStrategy. -/
def firstInvalid : List (Int × Int) → Option String
  | [] => none
  | p :: rest =>
    match validatePoint p.1 p.2 with
    | some e => some e
    | none => firstInvalid rest

/-- movement.NewPatrolStrategy, error-returning form: signature
`(points [][2]int) (*PatrolStrategy, error)`.  This is the form the caller
in main.go (`patrolStrategy, err := movement.NewPatrolStrategy(...)`)
compiles against.  Rejects lists of fewer than 2 points and lists with any
out-of-bounds point; otherwise targets the first waypoint with zeroed
accumulators. -/
def NewPatrolStrategy (points : List (Int × Int)) : Except String PatrolStrategy :=
  if h : points.length < 2 then
    .error "patrol strategy requires at least 2 points"
  else
    match firstInvalid points with
    | some e => .error e
    | none =>
      let p0 := points.get ⟨0, by omega⟩
      .ok ⟨points, 0, 0, 0, p0.1, p0.2⟩

/-- Outcome of the variant of NewPatrolStrategy found in
mech/movement/strategy.go lines 110-130, which panics instead of returning
an error; an unrecovered Go panic aborts the process. -/
inductive PatrolConstruction where
  | ok (s : PatrolStrategy)
  | panicked (msg : String)
deriving Repr, DecidableEq

/-- movement.NewPatrolStrategy as written in mech/movement/strategy.go
lines 110-130: same validation conditions and same constructed state as the
error-returning form, but each rejection is a `panic(...)`. -/
def NewPatrolStrategyStrategyGo (points : List (Int × Int)) : PatrolConstruction :=
  if h : points.length < 2 then
    .panicked "PatrolStrategy requires at least 2 points"
  else
    match firstInvalid points with
    | some e => .panicked e
    | none =>
      let p0 := points.get ⟨0, by omega⟩
      .ok ⟨points, 0, 0, 0, p0.1, p0.2⟩

/-- PatrolStrategy.updateTarget: advances the target index (wrapping modulo
the list length) exactly when the current position equals the active
waypoint.  The Go index expression `s.points[s.currPoint]` is total here via
`getD`; every reachable state keeps `currPoint` in range. -/
def PatrolStrategy.updateTarget (s : PatrolStrategy) (currentX currentY : Int) :
    PatrolStrategy :=
  if currentX = s.targetX ∧ currentY = s.targetY then
    let c := (s.currPoint + 1) % s.points.length
    let p := s.points.getD c (0, 0)
    { s with currPoint := c, targetX := p.1, targetY := p.2 }
  else s

/-- PatrolStrategy.normalizeDirection: square-root-free normalization by the
larger absolute component. -/
def normalizeDirection (dx dy : ℚ) : ℚ × ℚ :=
  if |dx| = 0 ∧ |dy| = 0 then (0, 0)
  else if |dx| > |dy| then (dx / |dx|, dy / |dx|)
  else (dx / |dy|, dy / |dy|)

/-- PatrolStrategy.calculateSteps: normalized direction toward the target,
accumulated into the step accumulators, converted to integer moves. -/
def PatrolStrategy.calculateSteps (s : PatrolStrategy) (currentX currentY : Int) :
    PatrolStrategy × ℤ × ℤ :=
  let n := normalizeDirection ((s.targetX - currentX : ℤ) : ℚ) ((s.targetY - currentY : ℤ) : ℚ)
  let ax := convertAxis (s.stepX + n.1 * moveStep)
  let ay := convertAxis (s.stepY + n.2 * moveStep)
  ({ s with stepX := ax.1, stepY := ay.1 }, ax.2, ay.2)

/-- PatrolStrategy.NextMove: updateTarget then calculateSteps; the returned
position is the displaced current position (no clamping in
movement/strategy.go's PatrolStrategy.NextMove). -/
def PatrolStrategy.NextMove (s : PatrolStrategy) (currentX currentY : Int) :
    PatrolStrategy × Int × Int :=
  let s1 := s.updateTarget currentX currentY
  let r := s1.calculateSteps currentX currentY
  (r.1, currentX + r.2.1, currentY + r.2.2)

/-- Iterated PatrolStrategy.NextMove: the strategy-state / position trajectory. -/
def patrolIter (st : PatrolStrategy × Int × Int) : ℕ → PatrolStrategy × Int × Int
  | 0 => st
  | n + 1 =>
    let prev := patrolIter st n
    prev.1.NextMove prev.2.1 prev.2.2


/-- Helper: the trace of fire invocations lists every weapon in loadout
order, paired with the single range value passed to each Fire call. -/
theorem fireWeapons_trace (x y : Int) (ws : List Weapon) (r : Int) (t : Mech)
    (us : ℕ → ℚ) (i : ℕ) :
    (fireWeapons x y ws r t us i).2.2 = ws.map (fun w => (w.name, r)) := by
  induction ws generalizing t i with
  | nil => rfl
  | cons w rest ih => simp [fireWeapons, ih]

/-- Helper: Hit is the identity (with no messages) on a destroyed mech. -/
theorem hit_noop_of_destroyed (m : Mech) (d : Int) (h : m.structure' ≤ 0) :
    m.Hit d = (m, []) := by
  simp [Mech.Hit, h]

/-- C1: Hit(d) with d > 0 on a living actor subtracts d unconditionally
(possibly driving structure negative); on an already-destroyed actor Hit is
a silent no-op emitting no events, for any d. -/
theorem hit_subtracts_or_is_noop (m : Mech) (d : Int) :
    (0 < d → 0 < m.structure' → (m.Hit d).1.structure' = m.structure' - d) ∧
    (m.structure' ≤ 0 → m.Hit d = (m, [])) := by
  constructor
  · intro _ h
    simp only [Mech.Hit, not_le.mpr h, if_false]
    split <;> rfl
  · intro h
    exact hit_noop_of_destroyed m d h

/-- Witness for C1 at concrete inputs. -/
theorem hit_subtracts_or_is_noop_witness :
    ((0 : Int) < 7 ∧ 0 < (NewMech "A" 5 0 0).structure' ∧
      ((NewMech "A" 5 0 0).Hit 7).1.structure' = (NewMech "A" 5 0 0).structure' - 7) ∧
    ((NewMech "B" 0 1 1).structure' ≤ 0 ∧
      (NewMech "B" 0 1 1).Hit 3 = (NewMech "B" 0 1 1, [])) :=
  ⟨⟨by decide, by decide,
      (hit_subtracts_or_is_noop (NewMech "A" 5 0 0) 7).1 (by decide) (by decide)⟩,
   ⟨by decide,
      (hit_subtracts_or_is_noop (NewMech "B" 0 1 1) 3).2 (by decide)⟩⟩

/-- C2: over every reachable Hit-sequence state, IsDestroyed answers exactly
whether the current structure is non-positive; the Mech record stores no
independent destroyed flag, so the answer is recomputed from structure. -/
theorem isDestroyed_iff_structure_nonpos (name : String) (maxS x y : Int)
    (ds : List Int) :
    (applyHits (NewMech name maxS x y) ds).IsDestroyed = true ↔
      (applyHits (NewMech name maxS x y) ds).StructureLeft ≤ 0 := by
  simp [Mech.IsDestroyed, Mech.StructureLeft]

/-- C3: an out-of-range shot returns false and leaves the target fully
unchanged, for any hit rate and any random draw: Hit is never reached. -/
theorem fire_out_of_range_no_effect (w : Weapon) (r : Int) (t : Mech) (u : ℚ) :
    w.maxRange < r → w.Fire r t u = (false, t, []) := by
  intro h
  simp [Weapon.Fire, not_le.mpr h]

/-- Witness for C3 at concrete inputs. -/
theorem fire_out_of_range_no_effect_witness :
    (Weapon.Create 2 3 "shotgun" 1).maxRange < 5 ∧
      (Weapon.Create 2 3 "shotgun" 1).Fire 5 (NewMech "T" 10 0 0) 0 =
        (false, NewMech "T" 10 0 0, []) :=
  ⟨by decide, fire_out_of_range_no_effect (Weapon.Create 2 3 "shotgun" 1) 5
    (NewMech "T" 10 0 0) 0 (by decide)⟩

/-- C9: at range, a draw of 0.0 with positive hit rate always hits and
subtracts exactly the weapon damage from a non-destroyed target; a draw of
1.0 with hit rate below 1.0 always misses and changes nothing (the hit test
is the comparison u <= hitRate). -/
theorem fire_deterministic_draws (w : Weapon) (r : Int) (t : Mech) :
    r ≤ w.maxRange → 0 < t.structure' →
    ((0 < w.hitRate →
        (w.Fire r t 0).1 = true ∧
        (w.Fire r t 0).2.1.structure' = t.structure' - w.damage) ∧
     (w.hitRate < 1 →
        (w.Fire r t 1).1 = false ∧ (w.Fire r t 1).2.1 = t)) := by
  intro hr ht
  constructor
  · intro hrate
    have h0 : (0 : ℚ) ≤ w.hitRate := le_of_lt hrate
    constructor
    · simp [Weapon.Fire, hr, h0]
    · simp only [Weapon.Fire, if_pos hr, if_pos h0]
      simp only [Mech.Hit, not_le.mpr ht, if_false]
      split <;> rfl
  · intro hrate
    have h1 : ¬((1 : ℚ) ≤ w.hitRate) := not_le.mpr hrate
    simp [Weapon.Fire, hr, h1]

/-- Witness for C9 at concrete inputs. -/
theorem fire_deterministic_draws_witness :
    ((3 : Int) ≤ (Weapon.Create 5 3 "rifle" (1/2)).maxRange ∧
      0 < (NewMech "T" 10 0 0).structure') ∧
    (0 < (Weapon.Create 5 3 "rifle" (1/2)).hitRate ∧
      ((Weapon.Create 5 3 "rifle" (1/2)).Fire 3 (NewMech "T" 10 0 0) 0).1 = true ∧
      ((Weapon.Create 5 3 "rifle" (1/2)).Fire 3 (NewMech "T" 10 0 0) 0).2.1.structure' =
        (NewMech "T" 10 0 0).structure' - (Weapon.Create 5 3 "rifle" (1/2)).damage) ∧
    ((Weapon.Create 5 3 "rifle" (1/2)).hitRate < 1 ∧
      ((Weapon.Create 5 3 "rifle" (1/2)).Fire 3 (NewMech "T" 10 0 0) 1).1 = false ∧
      ((Weapon.Create 5 3 "rifle" (1/2)).Fire 3 (NewMech "T" 10 0 0) 1).2.1 =
        NewMech "T" 10 0 0) := by
  refine ⟨⟨by decide, by decide⟩, ⟨by norm_num [Weapon.Create], ?_, ?_⟩,
    ⟨by norm_num [Weapon.Create], ?_, ?_⟩⟩
  · exact ((fire_deterministic_draws (Weapon.Create 5 3 "rifle" (1/2)) 3
      (NewMech "T" 10 0 0) (by decide) (by decide)).1 (by norm_num [Weapon.Create])).1
  · exact ((fire_deterministic_draws (Weapon.Create 5 3 "rifle" (1/2)) 3
      (NewMech "T" 10 0 0) (by decide) (by decide)).1 (by norm_num [Weapon.Create])).2
  · exact ((fire_deterministic_draws (Weapon.Create 5 3 "rifle" (1/2)) 3
      (NewMech "T" 10 0 0) (by decide) (by decide)).2 (by norm_num [Weapon.Create])).1
  · exact ((fire_deterministic_draws (Weapon.Create 5 3 "rifle" (1/2)) 3
      (NewMech "T" 10 0 0) (by decide) (by decide)).2 (by norm_num [Weapon.Create])).2

/-- C10: Hit validates nothing: on a living actor it sets structure to
structure - d for every integer d (zero and negative included), so a negative
d strictly heals; yet once structure is non-positive no Hit sequence changes
the actor at all, so destruction is irreversible. -/
theorem hit_no_validation (m : Mech) (d : Int) :
    (0 < m.structure' → (m.Hit d).1.structure' = m.structure' - d) ∧
    (0 < m.structure' → d < 0 → m.structure' < (m.Hit d).1.structure') ∧
    (m.structure' ≤ 0 → ∀ ds : List Int, applyHits m ds = m) := by
  have hsub : 0 < m.structure' → (m.Hit d).1.structure' = m.structure' - d := by
    intro h
    simp only [Mech.Hit, not_le.mpr h, if_false]
    split <;> rfl
  refine ⟨hsub, ?_, ?_⟩
  · intro h hd
    rw [hsub h]
    omega
  · intro h ds
    induction ds with
    | nil => rfl
    | cons a rest ih =>
      simpa [applyHits, hit_noop_of_destroyed m a h] using ih

/-- Witness for C10 at concrete inputs. -/
theorem hit_no_validation_witness :
    (0 < (NewMech "A" 5 0 0).structure' ∧
      ((NewMech "A" 5 0 0).Hit (-4)).1.structure' = (NewMech "A" 5 0 0).structure' - (-4) ∧
      (NewMech "A" 5 0 0).structure' < ((NewMech "A" 5 0 0).Hit (-4)).1.structure') ∧
    ((NewMech "B" (-2) 0 0).structure' ≤ 0 ∧
      applyHits (NewMech "B" (-2) 0 0) [4, -9, 3] = NewMech "B" (-2) 0 0) :=
  ⟨⟨by decide,
      (hit_no_validation (NewMech "A" 5 0 0) (-4)).1 (by decide),
      (hit_no_validation (NewMech "A" 5 0 0) (-4)).2.1 (by decide) (by decide)⟩,
   ⟨by decide,
      (hit_no_validation (NewMech "B" (-2) 0 0) 0).2.2 (by decide) [4, -9, 3]⟩⟩


/-- C5: attack is a silent no-op for an absent or destroyed target; otherwise
it computes the Manhattan distance from the attacker's previous-tick position
to the target's current position and fires every equipped weapon at exactly
that range, in loadout order. -/
theorem attack_no_op_or_fires_loadout (m t : Mech) (us : ℕ → ℚ) :
    m.attack none us = (none, [], []) ∧
    (t.IsDestroyed = true → m.attack (some t) us = (some t, [], [])) ∧
    (t.IsDestroyed = false →
      (m.attack (some t) us).2.2 =
        m.weapons.map (fun w => (w.name, |t.x - m.prevX| + |t.y - m.prevY|))) := by
  refine ⟨rfl, ?_, ?_⟩
  · intro h
    simp [Mech.attack, h]
  · intro h
    simp [Mech.attack, h, Mech.Fire, fireWeapons_trace, CalculateDistance]

/-- Witness for C5 at concrete inputs. -/
theorem attack_no_op_or_fires_loadout_witness :
    ((⟨10, 10, "P", 0, 0, 1, 2, [Weapon.Create 5 3 "rifle" 1]⟩ : Mech).attack none
        (fun _ => 0) = (none, [], [])) ∧
    ((NewMech "D" 0 4 6).IsDestroyed = true ∧
      (⟨10, 10, "P", 0, 0, 1, 2, [Weapon.Create 5 3 "rifle" 1]⟩ : Mech).attack
          (some (NewMech "D" 0 4 6)) (fun _ => 0) = (some (NewMech "D" 0 4 6), [], [])) ∧
    ((NewMech "T" 8 4 6).IsDestroyed = false ∧
      ((⟨10, 10, "P", 0, 0, 1, 2, [Weapon.Create 5 3 "rifle" 1]⟩ : Mech).attack
          (some (NewMech "T" 8 4 6)) (fun _ => 0)).2.2 =
        [("rifle", 7)]) := by
  refine ⟨?_, ⟨by decide, ?_⟩, ⟨by decide, ?_⟩⟩
  · exact (attack_no_op_or_fires_loadout
      (⟨10, 10, "P", 0, 0, 1, 2, [Weapon.Create 5 3 "rifle" 1]⟩ : Mech)
      (NewMech "T" 8 4 6) (fun _ => 0)).1
  · exact (attack_no_op_or_fires_loadout
      (⟨10, 10, "P", 0, 0, 1, 2, [Weapon.Create 5 3 "rifle" 1]⟩ : Mech)
      (NewMech "D" 0 4 6) (fun _ => 0)).2.1 (by decide)
  · have := (attack_no_op_or_fires_loadout
      (⟨10, 10, "P", 0, 0, 1, 2, [Weapon.Create 5 3 "rifle" 1]⟩ : Mech)
      (NewMech "T" 8 4 6) (fun _ => 0)).2.2 (by decide)
    simpa [Weapon.Create, NewMech] using this

/-- C7: the validator rejects exactly the out-of-bounds cells and the cells
occupied by some other tracked physical entity, and accepts every other
cell; it is a pure query of the entity list. -/
theorem isValidMove_reject_iff (selfId : ℕ) (entities : List Entity)
    (newX newY : Int) :
    Mech.isValidMove selfId entities newX newY = false ↔
      ((newX < minCoordinate ∨ newX > maxLevelWidth ∨
          newY < minCoordinate ∨ newY > maxLevelHeight) ∨
        ∃ e ∈ entities, e.id ≠ selfId ∧ e.physical = true ∧
          e.x = newX ∧ e.y = newY) := by
  unfold Mech.isValidMove
  split
  · rename_i h
    exact iff_of_true rfl (Or.inl h)
  · rename_i h
    simp only [h, false_or]
    rw [List.all_eq_false]
    constructor
    · rintro ⟨e, he, hp⟩
      refine ⟨e, he, ?_⟩
      cases hphys : e.physical
      · simp [hphys] at hp
      · simp [hphys] at hp ⊢
        tauto
    · rintro ⟨e, he, h1, h2, h3, h4⟩
      exact ⟨e, he, by simp [h1, h2, h3, h4]⟩


/-- Helper: a point passes validatePoint exactly when it lies in the
configured play rectangle. -/
theorem validatePoint_eq_none (x y : Int) :
    validatePoint x y = none ↔
      (minCoordinate ≤ x ∧ x ≤ maxLevelWidth ∧
        minCoordinate ≤ y ∧ y ≤ maxLevelHeight) := by
  unfold validatePoint
  split
  · rename_i h
    simp only [reduceCtorEq, false_iff]
    omega
  · split
    · rename_i h1 h2
      simp only [reduceCtorEq, false_iff]
      omega
    · rename_i h1 h2
      simp only [true_iff]
      omega

/-- Helper: the validation loop succeeds exactly when every point passes. -/
theorem firstInvalid_eq_none (pts : List (Int × Int)) :
    firstInvalid pts = none ↔ ∀ p ∈ pts, validatePoint p.1 p.2 = none := by
  induction pts with
  | nil => simp [firstInvalid]
  | cons p rest ih =>
    cases h : validatePoint p.1 p.2 <;> simp [firstInvalid, h, ih]

/-- C4: evidence theorem.  The NewPatrolStrategy written in
mech/movement/strategy.go panics - aborting the process - on the one-point
list [(0,0)], where the claim (and the caller in main.go, which receives
and handles an error value) requires a reported validation error; both that
variant and the error-returning variant reject exactly the lists with fewer
than 2 points or an out-of-bounds point, and succeed on all others. -/
theorem patrol_construction_validation (pts : List (Int × Int)) :
    NewPatrolStrategyStrategyGo [((0 : Int), (0 : Int))] =
      PatrolConstruction.panicked "PatrolStrategy requires at least 2 points" ∧
    ((∃ s, NewPatrolStrategyStrategyGo pts = PatrolConstruction.ok s) ↔
      (2 ≤ pts.length ∧ ∀ p ∈ pts,
        minCoordinate ≤ p.1 ∧ p.1 ≤ maxLevelWidth ∧
          minCoordinate ≤ p.2 ∧ p.2 ≤ maxLevelHeight)) ∧
    ((∃ s, NewPatrolStrategy pts = Except.ok s) ↔
      (2 ≤ pts.length ∧ ∀ p ∈ pts,
        minCoordinate ≤ p.1 ∧ p.1 ≤ maxLevelWidth ∧
          minCoordinate ≤ p.2 ∧ p.2 ≤ maxLevelHeight)) := by
  refine ⟨rfl, ?_, ?_⟩
  · unfold NewPatrolStrategyStrategyGo
    split
    · rename_i h
      simp only [reduceCtorEq, exists_false, false_iff, not_and]
      intro h2
      omega
    · rename_i h
      have hlen : 2 ≤ pts.length := by omega
      cases hfi : firstInvalid pts with
      | some e =>
        simp only [hfi, reduceCtorEq, exists_false, false_iff, not_and]
        intro _
        intro hall
        have : firstInvalid pts = none := by
          rw [firstInvalid_eq_none]
          intro p hp
          rw [validatePoint_eq_none]
          exact hall p hp
        rw [this] at hfi
        exact Option.noConfusion hfi
      | none =>
        simp only [hfi]
        refine iff_of_true ⟨_, rfl⟩ ⟨hlen, ?_⟩
        intro p hp
        rw [← validatePoint_eq_none]
        exact (firstInvalid_eq_none pts).mp hfi p hp
  · unfold NewPatrolStrategy
    split
    · rename_i h
      simp only [reduceCtorEq, exists_false, false_iff, not_and]
      intro h2
      omega
    · rename_i h
      have hlen : 2 ≤ pts.length := by omega
      cases hfi : firstInvalid pts with
      | some e =>
        simp only [hfi, reduceCtorEq, exists_false, false_iff, not_and]
        intro _
        intro hall
        have : firstInvalid pts = none := by
          rw [firstInvalid_eq_none]
          intro p hp
          rw [validatePoint_eq_none]
          exact hall p hp
        rw [this] at hfi
        exact Option.noConfusion hfi
      | none =>
        simp only [hfi]
        refine iff_of_true ⟨_, rfl⟩ ⟨hlen, ?_⟩
        intro p hp
        rw [← validatePoint_eq_none]
        exact (firstInvalid_eq_none pts).mp hfi p hp


/-- Accumulator-update discipline asserted by the spec for one axis of one
NextMove call: the post-call accumulator equals the pre-call value plus the
per-call directional increment minus the emitted integer displacement, and a
displacement is emitted exactly when the accumulated magnitude reaches
minStepThreshold (its rounded value, with the consumed fraction subtracted). -/
def AccumStep (pre inc post : ℚ) (emitted : ℤ) : Prop :=
  post = pre + inc - (emitted : ℚ) ∧
  emitted = (if minStepThreshold ≤ |pre + inc| then mathRound (pre + inc) else 0)

/-- Helper: convertAxis realizes AccumStep. -/
theorem convertAxis_accumStep (pre inc : ℚ) :
    AccumStep pre inc (convertAxis (pre + inc)).1 (convertAxis (pre + inc)).2 := by
  unfold AccumStep convertAxis
  split <;> simp

/-- C8 counterexample: a RandomWalkStrategy call on which the re-roll
condition fires (draw below directionChangeChance), starting from
accumulator stepX = 1/2 with direction components (1,0) and re-drawn
direction (1,0): the call emits no displacement yet leaves stepX = 1/5,
not the 1/2 + 0.1 - 0 the claim requires - the re-roll reinitialized the
accumulator, discarding the accumulated 1/2. -/
theorem randomwalk_reroll_discards_progress :
    (RandomWalkStrategy.NextMove ⟨1, 0, 1/2, 0⟩ 0 0 true 1 0).1.stepX = 1/5 ∧
    (RandomWalkStrategy.NextMove ⟨1, 0, 1/2, 0⟩ 0 0 true 1 0).2.1 = 0 ∧
    (RandomWalkStrategy.NextMove ⟨1, 0, 1/2, 0⟩ 0 0 true 1 0).2.2 = 0 ∧
    ¬AccumStep (1/2) (1 * moveStep)
      (RandomWalkStrategy.NextMove ⟨1, 0, 1/2, 0⟩ 0 0 true 1 0).1.stepX
      ((RandomWalkStrategy.NextMove ⟨1, 0, 1/2, 0⟩ 0 0 true 1 0).2.1 - 0) := by
  have hstep : RandomWalkStrategy.NextMove ⟨1, 0, 1/2, 0⟩ 0 0 true 1 0 =
      (⟨1, 0, 1/5, 0⟩, 0, 0) := by
    norm_num [RandomWalkStrategy.NextMove, RandomWalkStrategy.updateDirection,
      RandomWalkStrategy.accumulateSteps, convertAxis, moveStep, minStepThreshold,
      mathRound]
  rw [hstep]
  refine ⟨rfl, rfl, rfl, ?_⟩
  intro ⟨heq, _⟩
  norm_num [moveStep] at heq

/-- C8 amended: for PatrolStrategy every call obeys the
increment-minus-emission discipline on both accumulators; for
RandomWalkStrategy the same holds on every call whose re-roll condition
(both accumulators zero, or the direction-change draw firing) is false,
while a re-roll call first reinitializes both accumulators to the re-drawn
direction's unit components scaled by moveStep - discarding prior fractional
progress - and then applies the same discipline on top of that
reinitialized value. -/
theorem accumulators_follow_increment_minus_emission
    (ps : PatrolStrategy) (cx cy : Int)
    (rs : RandomWalkStrategy) (rx ry : Int) (reroll : Bool) (ndx ndy : ℚ) :
    (AccumStep ps.stepX
        ((normalizeDirection (((ps.updateTarget cx cy).targetX - cx : Int) : ℚ)
            (((ps.updateTarget cx cy).targetY - cy : Int) : ℚ)).1 * moveStep)
        (ps.NextMove cx cy).1.stepX ((ps.NextMove cx cy).2.1 - cx) ∧
      AccumStep ps.stepY
        ((normalizeDirection (((ps.updateTarget cx cy).targetX - cx : Int) : ℚ)
            (((ps.updateTarget cx cy).targetY - cy : Int) : ℚ)).2 * moveStep)
        (ps.NextMove cx cy).1.stepY ((ps.NextMove cx cy).2.2 - cy)) ∧
    (¬((rs.stepX = 0 ∧ rs.stepY = 0) ∨ reroll = true) →
      AccumStep rs.stepX (rs.dirX * moveStep)
          (rs.NextMove rx ry reroll ndx ndy).1.stepX
          ((rs.NextMove rx ry reroll ndx ndy).2.1 - rx) ∧
        AccumStep rs.stepY (rs.dirY * moveStep)
          (rs.NextMove rx ry reroll ndx ndy).1.stepY
          ((rs.NextMove rx ry reroll ndx ndy).2.2 - ry)) ∧
    (((rs.stepX = 0 ∧ rs.stepY = 0) ∨ reroll = true) →
      AccumStep (ndx * moveStep) (ndx * moveStep)
          (rs.NextMove rx ry reroll ndx ndy).1.stepX
          ((rs.NextMove rx ry reroll ndx ndy).2.1 - rx) ∧
        AccumStep (ndy * moveStep) (ndy * moveStep)
          (rs.NextMove rx ry reroll ndx ndy).1.stepY
          ((rs.NextMove rx ry reroll ndx ndy).2.2 - ry)) := by
  refine ⟨?_, ?_, ?_⟩
  · have hx : (ps.updateTarget cx cy).stepX = ps.stepX := by
      unfold PatrolStrategy.updateTarget
      split <;> rfl
    have hy : (ps.updateTarget cx cy).stepY = ps.stepY := by
      unfold PatrolStrategy.updateTarget
      split <;> rfl
    unfold PatrolStrategy.NextMove PatrolStrategy.calculateSteps
    simp only [add_sub_cancel_left, hx, hy]
    exact ⟨convertAxis_accumStep _ _, convertAxis_accumStep _ _⟩
  · intro h
    unfold RandomWalkStrategy.NextMove RandomWalkStrategy.updateDirection
    simp only [if_neg h]
    unfold RandomWalkStrategy.accumulateSteps
    simp only [add_sub_cancel_left]
    exact ⟨convertAxis_accumStep _ _, convertAxis_accumStep _ _⟩
  · intro h
    unfold RandomWalkStrategy.NextMove RandomWalkStrategy.updateDirection
    simp only [if_pos h]
    unfold RandomWalkStrategy.accumulateSteps
    simp only [add_sub_cancel_left]
    exact ⟨convertAxis_accumStep _ _, convertAxis_accumStep _ _⟩

/-- Witness for the amended C8 at concrete inputs. -/
theorem accumulators_follow_increment_minus_emission_witness :
    (¬((((⟨1, 0, 1/4, 0⟩ : RandomWalkStrategy).stepX = 0 ∧
          (⟨1, 0, 1/4, 0⟩ : RandomWalkStrategy).stepY = 0) ∨ false = true)) ∧
      AccumStep (⟨1, 0, 1/4, 0⟩ : RandomWalkStrategy).stepX
        ((⟨1, 0, 1/4, 0⟩ : RandomWalkStrategy).dirX * moveStep)
        ((⟨1, 0, 1/4, 0⟩ : RandomWalkStrategy).NextMove 0 0 false 1 0).1.stepX
        (((⟨1, 0, 1/4, 0⟩ : RandomWalkStrategy).NextMove 0 0 false 1 0).2.1 - 0)) ∧
    ((((⟨1, 0, 0, 0⟩ : RandomWalkStrategy).stepX = 0 ∧
          (⟨1, 0, 0, 0⟩ : RandomWalkStrategy).stepY = 0) ∨ true = true) ∧
      AccumStep ((1 : ℚ) * moveStep) ((1 : ℚ) * moveStep)
        ((⟨1, 0, 0, 0⟩ : RandomWalkStrategy).NextMove 0 0 true 1 0).1.stepX
        (((⟨1, 0, 0, 0⟩ : RandomWalkStrategy).NextMove 0 0 true 1 0).2.1 - 0)) := by
  constructor
  · have hne : ¬((((⟨1, 0, 1/4, 0⟩ : RandomWalkStrategy).stepX = 0 ∧
        (⟨1, 0, 1/4, 0⟩ : RandomWalkStrategy).stepY = 0) ∨ false = true)) := by
      norm_num
    exact ⟨hne, ((accumulators_follow_increment_minus_emission
      ⟨[], 0, 0, 0, 0, 0⟩ 0 0 ⟨1, 0, 1/4, 0⟩ 0 0 false 1 0).2.1 hne).1⟩
  · have hyes : ((((⟨1, 0, 0, 0⟩ : RandomWalkStrategy).stepX = 0 ∧
        (⟨1, 0, 0, 0⟩ : RandomWalkStrategy).stepY = 0) ∨ true = true)) := Or.inr rfl
    exact ⟨hyes, ((accumulators_follow_increment_minus_emission
      ⟨[], 0, 0, 0, 0, 0⟩ 0 0 ⟨1, 0, 0, 0⟩ 0 0 true 1 0).2.2 hyes).1⟩


/-- Helper: Go rounding sends a value in the interval reachable by one
accumulation step past the threshold, namely [1, 3/2), to 1. -/
theorem mathRound_eq_one (a : ℚ) (h1 : 1 ≤ a) (h2 : a < 3/2) : mathRound a = 1 := by
  unfold mathRound
  rw [if_pos (by linarith)]
  rw [Int.floor_eq_iff]
  constructor <;> push_cast <;> linarith

/-- Helper: symmetric fact for (-3/2, -1]. -/
theorem mathRound_eq_neg_one (a : ℚ) (h1 : a ≤ -1) (h2 : -3/2 < a) :
    mathRound a = -1 := by
  unfold mathRound
  rw [if_neg (by linarith)]
  have : ⌊-a + 1/2⌋ = 1 := by
    rw [Int.floor_eq_iff]
    constructor <;> push_cast <;> linarith
  rw [this]

/-- Helper: one accumulation step of magnitude at most moveStep starting
below the threshold: the residual stays below the threshold; with no
emission the accumulator is exactly pre + inc; an emission is a single cell
in the direction of the increment. -/
theorem axis_step (pre inc : ℚ) (hpre : |pre| < 1) (hinc : |inc| ≤ 1/10) :
    |(convertAxis (pre + inc)).1| < 1 ∧
    ((convertAxis (pre + inc)).2 = 0 → (convertAxis (pre + inc)).1 = pre + inc ∧
      |pre + inc| < 1) ∧
    ((convertAxis (pre + inc)).2 ≠ 0 →
      ((0 < inc ∧ (convertAxis (pre + inc)).2 = 1) ∨
        (inc < 0 ∧ (convertAxis (pre + inc)).2 = -1))) := by
  have hpre1 := abs_lt.mp hpre
  have hinc1 := abs_le.mp hinc
  unfold convertAxis minStepThreshold
  split
  · rename_i h
    rcases abs_cases (pre + inc) with ⟨heq, hge⟩ | ⟨heq, hlt⟩
    · have hlb : 1 ≤ pre + inc := by rw [← heq]; exact h
      have hub : pre + inc < 3/2 := by linarith
      have hr := mathRound_eq_one (pre + inc) hlb hub
      rw [hr]
      refine ⟨?_, ?_, ?_⟩
      · rw [abs_lt]
        constructor <;> push_cast <;> linarith
      · intro hcontra
        exact absurd hcontra (by norm_num)
      · intro _
        left
        exact ⟨by linarith, rfl⟩
    · have hub : pre + inc ≤ -1 := by nlinarith [h, heq]
      have hlb : -3/2 < pre + inc := by linarith
      have hr := mathRound_eq_neg_one (pre + inc) hub hlb
      rw [hr]
      refine ⟨?_, ?_, ?_⟩
      · rw [abs_lt]
        constructor <;> push_cast <;> linarith
      · intro hcontra
        exact absurd hcontra (by norm_num)
      · intro _
        right
        exact ⟨by linarith, rfl⟩
  · rename_i h
    push_neg at h
    exact ⟨h, fun _ => ⟨rfl, h⟩, fun hc => absurd rfl hc⟩

/-- Helper: both normalized components have magnitude at most 1. -/
theorem normalizeDirection_abs_le (dx dy : ℚ) :
    |(normalizeDirection dx dy).1| ≤ 1 ∧ |(normalizeDirection dx dy).2| ≤ 1 := by
  unfold normalizeDirection
  split
  · norm_num
  · rename_i hnz
    split
    · rename_i hgt
      have hdx : 0 < |dx| := lt_of_le_of_lt (abs_nonneg dy) hgt
      constructor
      · rw [abs_div, abs_abs, div_le_one hdx]
      · rw [abs_div, abs_abs, div_le_one hdx]
        exact le_of_lt hgt
    · rename_i hle
      push_neg at hle
      have hdy : 0 < |dy| := by
        rcases lt_or_eq_of_le (abs_nonneg dy) with h | h
        · exact h
        · exfalso
          apply hnz
          have hdy0 : |dy| = 0 := h.symm
          have hdx0 : |dx| = 0 := le_antisymm (hdy0 ▸ hle) (abs_nonneg dx)
          exact ⟨hdx0, hdy0⟩
      constructor
      · rw [abs_div, abs_abs, div_le_one hdy]
        exact hle
      · rw [abs_div, abs_abs, div_le_one hdy]


/-- Helper: each normalized component carries the sign of its input. -/
theorem normalizeDirection_sign (dx dy : ℚ) :
    ((0 : ℚ) < dx → 0 < (normalizeDirection dx dy).1) ∧
    (dx < 0 → (normalizeDirection dx dy).1 < 0) ∧
    (dx = 0 → (normalizeDirection dx dy).1 = 0) ∧
    ((0 : ℚ) < dy → 0 < (normalizeDirection dx dy).2) ∧
    (dy < 0 → (normalizeDirection dx dy).2 < 0) ∧
    (dy = 0 → (normalizeDirection dx dy).2 = 0) := by
  unfold normalizeDirection
  split
  · rename_i h
    have hdx : dx = 0 := abs_eq_zero.mp h.1
    have hdy : dy = 0 := abs_eq_zero.mp h.2
    subst hdx hdy
    norm_num
  · rename_i hnz
    split
    · rename_i hgt
      have hdxpos : 0 < |dx| := lt_of_le_of_lt (abs_nonneg dy) hgt
      refine ⟨?_, ?_, ?_, ?_, ?_, ?_⟩
      · intro h
        exact div_pos h hdxpos
      · intro h
        exact div_neg_of_neg_of_pos h hdxpos
      · intro h
        simp [h]
      · intro h
        exact div_pos h hdxpos
      · intro h
        exact div_neg_of_neg_of_pos h hdxpos
      · intro h
        simp [h]
    · rename_i hle
      push_neg at hle
      have hdypos : 0 < |dy| := by
        rcases lt_or_eq_of_le (abs_nonneg dy) with h | h
        · exact h
        · exfalso
          apply hnz
          have hdy0 : |dy| = 0 := h.symm
          have hdx0 : |dx| = 0 := le_antisymm (hdy0 ▸ hle) (abs_nonneg dx)
          exact ⟨hdx0, hdy0⟩
      refine ⟨?_, ?_, ?_, ?_, ?_, ?_⟩
      · intro h
        exact div_pos h hdypos
      · intro h
        exact div_neg_of_neg_of_pos h hdypos
      · intro h
        simp [h]
      · intro h
        exact div_pos h hdypos
      · intro h
        exact div_neg_of_neg_of_pos h hdypos
      · intro h
        simp [h]

/-- Helper: the dominant component of the normalized direction is exactly
the sign of its input. -/
theorem normalizeDirection_dominant (dx dy : ℚ) :
    (|dy| < |dx| → (normalizeDirection dx dy).1 = dx / |dx|) ∧
    (¬(dx = 0 ∧ dy = 0) → |dx| ≤ |dy| → (normalizeDirection dx dy).2 = dy / |dy|) := by
  unfold normalizeDirection
  constructor
  · intro hgt
    have hdxpos : 0 < |dx| := lt_of_le_of_lt (abs_nonneg dy) hgt
    rw [if_neg, if_pos hgt]
    intro ⟨h1, _⟩
    rw [h1] at hdxpos
    exact lt_irrefl 0 hdxpos
  · intro hnz hle
    rw [if_neg, if_neg (not_lt.mpr hle)]
    intro ⟨h1, h2⟩
    exact hnz ⟨abs_eq_zero.mp h1, abs_eq_zero.mp h2⟩

/-- Helper: a nonzero rational divided by its own absolute value is its sign. -/
theorem div_abs_self_eq (a : ℚ) :
    (0 < a → a / |a| = 1) ∧ (a < 0 → a / |a| = -1) := by
  constructor
  · intro h
    rw [abs_of_pos h, div_self (ne_of_gt h)]
  · intro h
    rw [abs_of_neg h, div_neg, div_self (ne_of_lt h)]


/-- Helper: one NextMove call while the actor is not at the active waypoint:
the waypoint bookkeeping is untouched, accumulators stay below threshold,
per-axis distances to the target never grow, and the call either leaves the
position unchanged (pure accumulation by the directional increment) or
strictly decreases the L1 distance to the target. -/
theorem patrol_pursuit_step (s : PatrolStrategy) (cx cy : Int)
    (hne : ¬(cx = s.targetX ∧ cy = s.targetY))
    (hx : |s.stepX| < 1) (hy : |s.stepY| < 1) :
    (s.NextMove cx cy).1.points = s.points ∧
    (s.NextMove cx cy).1.currPoint = s.currPoint ∧
    (s.NextMove cx cy).1.targetX = s.targetX ∧
    (s.NextMove cx cy).1.targetY = s.targetY ∧
    |(s.NextMove cx cy).1.stepX| < 1 ∧ |(s.NextMove cx cy).1.stepY| < 1 ∧
    (s.targetX - (s.NextMove cx cy).2.1).natAbs ≤ (s.targetX - cx).natAbs ∧
    (s.targetY - (s.NextMove cx cy).2.2).natAbs ≤ (s.targetY - cy).natAbs ∧
    (((s.NextMove cx cy).2.1 = cx ∧ (s.NextMove cx cy).2.2 = cy ∧
        (s.NextMove cx cy).1.stepX = s.stepX +
          (normalizeDirection ((s.targetX - cx : Int) : ℚ)
            ((s.targetY - cy : Int) : ℚ)).1 * moveStep ∧
        (s.NextMove cx cy).1.stepY = s.stepY +
          (normalizeDirection ((s.targetX - cx : Int) : ℚ)
            ((s.targetY - cy : Int) : ℚ)).2 * moveStep) ∨
      ((s.targetX - (s.NextMove cx cy).2.1).natAbs +
          (s.targetY - (s.NextMove cx cy).2.2).natAbs <
        (s.targetX - cx).natAbs + (s.targetY - cy).natAbs)) := by
  have hupd : s.updateTarget cx cy = s := by
    unfold PatrolStrategy.updateTarget
    rw [if_neg hne]
  have heq : s.NextMove cx cy =
      ({ s with
          stepX := (convertAxis (s.stepX +
            (normalizeDirection ((s.targetX - cx : Int) : ℚ)
              ((s.targetY - cy : Int) : ℚ)).1 * moveStep)).1,
          stepY := (convertAxis (s.stepY +
            (normalizeDirection ((s.targetX - cx : Int) : ℚ)
              ((s.targetY - cy : Int) : ℚ)).2 * moveStep)).1 },
        cx + (convertAxis (s.stepX +
          (normalizeDirection ((s.targetX - cx : Int) : ℚ)
            ((s.targetY - cy : Int) : ℚ)).1 * moveStep)).2,
        cy + (convertAxis (s.stepY +
          (normalizeDirection ((s.targetX - cx : Int) : ℚ)
            ((s.targetY - cy : Int) : ℚ)).2 * moveStep)).2) := by
    unfold PatrolStrategy.NextMove PatrolStrategy.calculateSteps
    rw [hupd]
  have hnabs := normalizeDirection_abs_le ((s.targetX - cx : Int) : ℚ)
    ((s.targetY - cy : Int) : ℚ)
  have hsign := normalizeDirection_sign ((s.targetX - cx : Int) : ℚ)
    ((s.targetY - cy : Int) : ℚ)
  have hincX : |(normalizeDirection ((s.targetX - cx : Int) : ℚ)
      ((s.targetY - cy : Int) : ℚ)).1 * moveStep| ≤ 1/10 := by
    rw [abs_mul]
    unfold moveStep
    rw [abs_of_pos (by norm_num : (0:ℚ) < 1/10)]
    nlinarith [hnabs.1]
  have hincY : |(normalizeDirection ((s.targetX - cx : Int) : ℚ)
      ((s.targetY - cy : Int) : ℚ)).2 * moveStep| ≤ 1/10 := by
    rw [abs_mul]
    unfold moveStep
    rw [abs_of_pos (by norm_num : (0:ℚ) < 1/10)]
    nlinarith [hnabs.2]
  have axX := axis_step s.stepX _ hx hincX
  have axY := axis_step s.stepY _ hy hincY
  -- sign transfer from the emitted displacement back to the integer delta
  have hmx : (convertAxis (s.stepX +
        (normalizeDirection ((s.targetX - cx : Int) : ℚ)
          ((s.targetY - cy : Int) : ℚ)).1 * moveStep)).2 = 0 ∨
      (0 < s.targetX - cx ∧ (convertAxis (s.stepX +
        (normalizeDirection ((s.targetX - cx : Int) : ℚ)
          ((s.targetY - cy : Int) : ℚ)).1 * moveStep)).2 = 1) ∨
      (s.targetX - cx < 0 ∧ (convertAxis (s.stepX +
        (normalizeDirection ((s.targetX - cx : Int) : ℚ)
          ((s.targetY - cy : Int) : ℚ)).1 * moveStep)).2 = -1) := by
    by_cases h0 : (convertAxis (s.stepX +
        (normalizeDirection ((s.targetX - cx : Int) : ℚ)
          ((s.targetY - cy : Int) : ℚ)).1 * moveStep)).2 = 0
    · exact Or.inl h0
    · rcases axX.2.2 h0 with ⟨hpos, hone⟩ | ⟨hneg, hone⟩
      · refine Or.inr (Or.inl ⟨?_, hone⟩)
        have hn1 : 0 < (normalizeDirection ((s.targetX - cx : Int) : ℚ)
            ((s.targetY - cy : Int) : ℚ)).1 := by
          by_contra hcon
          push_neg at hcon
          have : (normalizeDirection ((s.targetX - cx : Int) : ℚ)
              ((s.targetY - cy : Int) : ℚ)).1 * moveStep ≤ 0 := by
            unfold moveStep
            nlinarith
          linarith
        have hdx : (0 : ℚ) < ((s.targetX - cx : Int) : ℚ) := by
          rcases lt_trichotomy ((s.targetX - cx : Int) : ℚ) 0 with h | h | h
          · exact absurd (hsign.2.1 h) (by linarith)
          · exact absurd (hsign.2.2.1 h) (by linarith)
          · exact h
        exact_mod_cast hdx
      · refine Or.inr (Or.inr ⟨?_, hone⟩)
        have hn1 : (normalizeDirection ((s.targetX - cx : Int) : ℚ)
            ((s.targetY - cy : Int) : ℚ)).1 < 0 := by
          by_contra hcon
          push_neg at hcon
          have : 0 ≤ (normalizeDirection ((s.targetX - cx : Int) : ℚ)
              ((s.targetY - cy : Int) : ℚ)).1 * moveStep := by
            unfold moveStep
            nlinarith
          linarith
        have hdx : ((s.targetX - cx : Int) : ℚ) < 0 := by
          rcases lt_trichotomy ((s.targetX - cx : Int) : ℚ) 0 with h | h | h
          · exact h
          · exact absurd (hsign.2.2.1 h) (by linarith)
          · exact absurd (hsign.1 h) (by linarith)
        exact_mod_cast hdx
  have hmy : (convertAxis (s.stepY +
        (normalizeDirection ((s.targetX - cx : Int) : ℚ)
          ((s.targetY - cy : Int) : ℚ)).2 * moveStep)).2 = 0 ∨
      (0 < s.targetY - cy ∧ (convertAxis (s.stepY +
        (normalizeDirection ((s.targetX - cx : Int) : ℚ)
          ((s.targetY - cy : Int) : ℚ)).2 * moveStep)).2 = 1) ∨
      (s.targetY - cy < 0 ∧ (convertAxis (s.stepY +
        (normalizeDirection ((s.targetX - cx : Int) : ℚ)
          ((s.targetY - cy : Int) : ℚ)).2 * moveStep)).2 = -1) := by
    by_cases h0 : (convertAxis (s.stepY +
        (normalizeDirection ((s.targetX - cx : Int) : ℚ)
          ((s.targetY - cy : Int) : ℚ)).2 * moveStep)).2 = 0
    · exact Or.inl h0
    · rcases axY.2.2 h0 with ⟨hpos, hone⟩ | ⟨hneg, hone⟩
      · refine Or.inr (Or.inl ⟨?_, hone⟩)
        have hn1 : 0 < (normalizeDirection ((s.targetX - cx : Int) : ℚ)
            ((s.targetY - cy : Int) : ℚ)).2 := by
          by_contra hcon
          push_neg at hcon
          have : (normalizeDirection ((s.targetX - cx : Int) : ℚ)
              ((s.targetY - cy : Int) : ℚ)).2 * moveStep ≤ 0 := by
            unfold moveStep
            nlinarith
          linarith
        have hdy : (0 : ℚ) < ((s.targetY - cy : Int) : ℚ) := by
          rcases lt_trichotomy ((s.targetY - cy : Int) : ℚ) 0 with h | h | h
          · exact absurd (hsign.2.2.2.2.1 h) (by linarith)
          · exact absurd (hsign.2.2.2.2.2 h) (by linarith)
          · exact h
        exact_mod_cast hdy
      · refine Or.inr (Or.inr ⟨?_, hone⟩)
        have hn1 : (normalizeDirection ((s.targetX - cx : Int) : ℚ)
            ((s.targetY - cy : Int) : ℚ)).2 < 0 := by
          by_contra hcon
          push_neg at hcon
          have : 0 ≤ (normalizeDirection ((s.targetX - cx : Int) : ℚ)
              ((s.targetY - cy : Int) : ℚ)).2 * moveStep := by
            unfold moveStep
            nlinarith
          linarith
        have hdy : ((s.targetY - cy : Int) : ℚ) < 0 := by
          rcases lt_trichotomy ((s.targetY - cy : Int) : ℚ) 0 with h | h | h
          · exact h
          · exact absurd (hsign.2.2.2.2.2 h) (by linarith)
          · exact absurd (hsign.2.2.2.1 h) (by linarith)
        exact_mod_cast hdy
  rw [heq]
  refine ⟨rfl, rfl, rfl, rfl, axX.1, axY.1, ?_, ?_, ?_⟩
  · rcases hmx with h | ⟨hd, h⟩ | ⟨hd, h⟩ <;> simp only [h] <;> omega
  · rcases hmy with h | ⟨hd, h⟩ | ⟨hd, h⟩ <;> simp only [h] <;> omega
  · by_cases hz : (convertAxis (s.stepX +
        (normalizeDirection ((s.targetX - cx : Int) : ℚ)
          ((s.targetY - cy : Int) : ℚ)).1 * moveStep)).2 = 0 ∧
      (convertAxis (s.stepY +
        (normalizeDirection ((s.targetX - cx : Int) : ℚ)
          ((s.targetY - cy : Int) : ℚ)).2 * moveStep)).2 = 0
    · left
      refine ⟨by rw [hz.1]; ring, by rw [hz.2]; ring, ?_, ?_⟩
      · exact (axX.2.1 hz.1).1
      · exact (axY.2.1 hz.2).1
    · right
      push_neg at hz
      rcases hmx with h1 | ⟨hd1, h1⟩ | ⟨hd1, h1⟩
      · rcases hmy with h2 | ⟨hd2, h2⟩ | ⟨hd2, h2⟩
        · exact absurd h2 (hz h1)
        · simp only [h1, h2]
          omega
        · simp only [h1, h2]
          omega
      · rcases hmy with h2 | ⟨hd2, h2⟩ | ⟨hd2, h2⟩ <;> simp only [h1, h2] <;> omega
      · rcases hmy with h2 | ⟨hd2, h2⟩ | ⟨hd2, h2⟩ <;> simp only [h1, h2] <;> omega


/-- Helper: trajectory composition. -/
theorem patrolIter_add (st : PatrolStrategy × Int × Int) (m n : ℕ) :
    patrolIter st (m + n) = patrolIter (patrolIter st m) n := by
  induction n with
  | zero => rfl
  | succ n ih =>
    show (patrolIter st (m + n)).1.NextMove (patrolIter st (m + n)).2.1
        (patrolIter st (m + n)).2.2 =
      (patrolIter (patrolIter st m) n).1.NextMove
        (patrolIter (patrolIter st m) n).2.1 (patrolIter (patrolIter st m) n).2.2
    rw [ih]

/-- Termination measure for the pursuit: scaled distance of the dominant
axis accumulator from the threshold it is moving toward (the dominant axis
gains exactly moveStep per call, so this drops by exactly 1 per
non-emitting call). -/
def domDeficit (s : PatrolStrategy) (cx cy : Int) : ℚ :=
  if |((s.targetY - cy : Int) : ℚ)| < |((s.targetX - cx : Int) : ℚ)| then
    (if 0 < ((s.targetX - cx : Int) : ℚ) then 10 * (1 - s.stepX) else 10 * (1 + s.stepX))
  else
    (if 0 < ((s.targetY - cy : Int) : ℚ) then 10 * (1 - s.stepY) else 10 * (1 + s.stepY))

/-- Helper: the measure is bounded by 20 while the accumulators are below
threshold, and is then strictly positive. -/
theorem domDeficit_bounds (s : PatrolStrategy) (cx cy : Int)
    (hx : |s.stepX| < 1) (hy : |s.stepY| < 1) :
    0 < domDeficit s cx cy ∧ domDeficit s cx cy ≤ 20 := by
  have hx' := abs_lt.mp hx
  have hy' := abs_lt.mp hy
  unfold domDeficit
  split <;> split <;> constructor <;> linarith

/-- Helper: a non-emitting pursuit call decreases the measure by exactly 1. -/
theorem domDeficit_decreases (s : PatrolStrategy) (cx cy : Int)
    (hne : ¬(cx = s.targetX ∧ cy = s.targetY)) (s' : PatrolStrategy)
    (htx : s'.targetX = s.targetX) (hty : s'.targetY = s.targetY)
    (hax : s'.stepX = s.stepX +
      (normalizeDirection ((s.targetX - cx : Int) : ℚ)
        ((s.targetY - cy : Int) : ℚ)).1 * moveStep)
    (hay : s'.stepY = s.stepY +
      (normalizeDirection ((s.targetX - cx : Int) : ℚ)
        ((s.targetY - cy : Int) : ℚ)).2 * moveStep) :
    domDeficit s' cx cy = domDeficit s cx cy - 1 := by
  have hnz : ¬(((s.targetX - cx : Int) : ℚ) = 0 ∧ ((s.targetY - cy : Int) : ℚ) = 0) := by
    intro ⟨h1, h2⟩
    apply hne
    have h1' : s.targetX - cx = 0 := by exact_mod_cast h1
    have h2' : s.targetY - cy = 0 := by exact_mod_cast h2
    omega
  unfold domDeficit
  rw [htx, hty, hax, hay]
  by_cases hdom : |((s.targetY - cy : Int) : ℚ)| < |((s.targetX - cx : Int) : ℚ)|
  · rw [if_pos hdom, if_pos hdom]
    have hdx0 : ((s.targetX - cx : Int) : ℚ) ≠ 0 := by
      intro h
      rw [h] at hdom
      simp only [abs_zero] at hdom
      exact absurd hdom (not_lt.mpr (abs_nonneg _))
    have hn1 := (normalizeDirection_dominant ((s.targetX - cx : Int) : ℚ)
      ((s.targetY - cy : Int) : ℚ)).1 hdom
    rcases lt_or_gt_of_ne hdx0 with hneg | hpos
    · rw [if_neg (not_lt.mpr (le_of_lt hneg)), if_neg (not_lt.mpr (le_of_lt hneg))]
      rw [hn1, (div_abs_self_eq _).2 hneg]
      unfold moveStep
      ring
    · rw [if_pos hpos, if_pos hpos]
      rw [hn1, (div_abs_self_eq _).1 hpos]
      unfold moveStep
      ring
  · rw [if_neg hdom, if_neg hdom]
    push_neg at hdom
    have hdy0 : ((s.targetY - cy : Int) : ℚ) ≠ 0 := by
      intro h
      apply hnz
      refine ⟨?_, h⟩
      rw [h] at hdom
      simp only [abs_zero] at hdom
      exact abs_eq_zero.mp (le_antisymm hdom (abs_nonneg _))
    have hn2 := (normalizeDirection_dominant ((s.targetX - cx : Int) : ℚ)
      ((s.targetY - cy : Int) : ℚ)).2 hnz hdom
    rcases lt_or_gt_of_ne hdy0 with hneg | hpos
    · rw [if_neg (not_lt.mpr (le_of_lt hneg)), if_neg (not_lt.mpr (le_of_lt hneg))]
      rw [hn2, (div_abs_self_eq _).2 hneg]
      unfold moveStep
      ring
    · rw [if_pos hpos, if_pos hpos]
      rw [hn2, (div_abs_self_eq _).1 hpos]
      unfold moveStep
      ring


/-- Helper: while the actor is away from the active waypoint, within a
bounded number of calls some integer displacement is emitted, strictly
decreasing the L1 distance to the waypoint; the waypoint bookkeeping is
untouched throughout and the accumulators stay below threshold. -/
theorem patrol_first_trigger (K : ℕ) :
    ∀ (s : PatrolStrategy) (cx cy : Int),
      ¬(cx = s.targetX ∧ cy = s.targetY) → |s.stepX| < 1 → |s.stepY| < 1 →
      domDeficit s cx cy ≤ (K : ℚ) →
      ∃ j : ℕ,
        (patrolIter (s, cx, cy) j).1.points = s.points ∧
        (patrolIter (s, cx, cy) j).1.currPoint = s.currPoint ∧
        (patrolIter (s, cx, cy) j).1.targetX = s.targetX ∧
        (patrolIter (s, cx, cy) j).1.targetY = s.targetY ∧
        |(patrolIter (s, cx, cy) j).1.stepX| < 1 ∧
        |(patrolIter (s, cx, cy) j).1.stepY| < 1 ∧
        (s.targetX - (patrolIter (s, cx, cy) j).2.1).natAbs +
            (s.targetY - (patrolIter (s, cx, cy) j).2.2).natAbs <
          (s.targetX - cx).natAbs + (s.targetY - cy).natAbs := by
  induction K with
  | zero =>
    intro s cx cy hne hx hy hK
    exfalso
    have := (domDeficit_bounds s cx cy hx hy).1
    rw [Nat.cast_zero] at hK
    linarith
  | succ K ih =>
    intro s cx cy hne hx hy hK
    obtain ⟨hpts, hcp, htx, hty, hsx, hsy, hlex, hley, hdisj⟩ :=
      patrol_pursuit_step s cx cy hne hx hy
    rcases hdisj with ⟨hpx, hpy, hax, hay⟩ | hstrict
    · -- no emission this call: position unchanged, measure drops by 1
      have hone : patrolIter (s, cx, cy) 1 = ((s.NextMove cx cy).1, cx, cy) := by
        show s.NextMove cx cy = ((s.NextMove cx cy).1, cx, cy)
        conv_lhs => rw [show s.NextMove cx cy = ((s.NextMove cx cy).1,
          (s.NextMove cx cy).2.1, (s.NextMove cx cy).2.2) from rfl]
        rw [hpx, hpy]
      have hne' : ¬(cx = (s.NextMove cx cy).1.targetX ∧
          cy = (s.NextMove cx cy).1.targetY) := by
        rw [htx, hty]
        exact hne
      have hdef : domDeficit (s.NextMove cx cy).1 cx cy = domDeficit s cx cy - 1 :=
        domDeficit_decreases s cx cy hne (s.NextMove cx cy).1 htx hty hax hay
      have hK' : domDeficit (s.NextMove cx cy).1 cx cy ≤ (K : ℚ) := by
        rw [hdef]
        push_cast at hK
        linarith
      obtain ⟨j, hj⟩ := ih (s.NextMove cx cy).1 cx cy hne' hsx hsy hK'
      refine ⟨1 + j, ?_⟩
      have hcomp : patrolIter (s, cx, cy) (1 + j) =
          patrolIter ((s.NextMove cx cy).1, cx, cy) j := by
        rw [patrolIter_add (s, cx, cy) 1 j, hone]
      rw [hcomp]
      rw [htx, hty] at hj
      exact ⟨hj.1.trans hpts, hj.2.1.trans hcp, hj.2.2.1, hj.2.2.2.1,
        hj.2.2.2.2.1, hj.2.2.2.2.2.1, hj.2.2.2.2.2.2⟩
    · -- an emission happened: one call suffices
      refine ⟨1, ?_⟩
      have hone : patrolIter (s, cx, cy) 1 = s.NextMove cx cy := rfl
      rw [hone]
      exact ⟨hpts, hcp, htx, hty, hsx, hsy, hstrict⟩


/-- Helper: from any strategy state with sub-threshold accumulators, the
trajectory reaches the active waypoint exactly, with the waypoint
bookkeeping untouched and the accumulators still sub-threshold at arrival. -/
theorem patrol_reach (D : ℕ) :
    ∀ (s : PatrolStrategy) (cx cy : Int),
      |s.stepX| < 1 → |s.stepY| < 1 →
      (s.targetX - cx).natAbs + (s.targetY - cy).natAbs ≤ D →
      ∃ n : ℕ,
        (patrolIter (s, cx, cy) n).2.1 = s.targetX ∧
        (patrolIter (s, cx, cy) n).2.2 = s.targetY ∧
        (patrolIter (s, cx, cy) n).1.points = s.points ∧
        (patrolIter (s, cx, cy) n).1.currPoint = s.currPoint ∧
        (patrolIter (s, cx, cy) n).1.targetX = s.targetX ∧
        (patrolIter (s, cx, cy) n).1.targetY = s.targetY ∧
        |(patrolIter (s, cx, cy) n).1.stepX| < 1 ∧
        |(patrolIter (s, cx, cy) n).1.stepY| < 1 := by
  induction D using Nat.strong_induction_on with
  | _ D ih =>
    intro s cx cy hx hy hD
    by_cases hat : cx = s.targetX ∧ cy = s.targetY
    · exact ⟨0, hat.1, hat.2, rfl, rfl, rfl, rfl, hx, hy⟩
    · have h20 := (domDeficit_bounds s cx cy hx hy).2
      obtain ⟨j, hjpts, hjcp, hjtx, hjty, hjsx, hjsy, hjlt⟩ :=
        patrol_first_trigger 20 s cx cy hat hx hy (by push_cast; linarith)
      set mid := patrolIter (s, cx, cy) j with hmid
      have hlt : (s.targetX - mid.2.1).natAbs + (s.targetY - mid.2.2).natAbs < D :=
        lt_of_lt_of_le hjlt hD
      obtain ⟨n, hn⟩ := ih ((s.targetX - mid.2.1).natAbs + (s.targetY - mid.2.2).natAbs)
        hlt mid.1 mid.2.1 mid.2.2 hjsx hjsy (by rw [hjtx, hjty])
      refine ⟨j + n, ?_⟩
      have hcomp : patrolIter (s, cx, cy) (j + n) =
          patrolIter (mid.1, mid.2.1, mid.2.2) n := by
        rw [patrolIter_add (s, cx, cy) j n]
      rw [hjtx, hjty] at hn
      rw [hcomp]
      exact ⟨hn.1, hn.2.1, hn.2.2.1.trans hjpts, hn.2.2.2.1.trans hjcp,
        hn.2.2.2.2.1, hn.2.2.2.2.2.1, hn.2.2.2.2.2.2⟩


/-- Helper: the call made with the actor standing on the active waypoint
advances the target index by one (wrapping modulo the list length), retargets
the corresponding waypoint, keeps the point list, and keeps the accumulators
sub-threshold. -/
theorem patrol_advance (s : PatrolStrategy) (cx cy : Int)
    (hat : cx = s.targetX ∧ cy = s.targetY)
    (hx : |s.stepX| < 1) (hy : |s.stepY| < 1) :
    (s.NextMove cx cy).1.points = s.points ∧
    (s.NextMove cx cy).1.currPoint = (s.currPoint + 1) % s.points.length ∧
    (s.NextMove cx cy).1.targetX =
      (s.points.getD ((s.currPoint + 1) % s.points.length) (0, 0)).1 ∧
    (s.NextMove cx cy).1.targetY =
      (s.points.getD ((s.currPoint + 1) % s.points.length) (0, 0)).2 ∧
    |(s.NextMove cx cy).1.stepX| < 1 ∧ |(s.NextMove cx cy).1.stepY| < 1 := by
  have heq : s.NextMove cx cy =
      ({ s with
          currPoint := (s.currPoint + 1) % s.points.length,
          targetX := (s.points.getD ((s.currPoint + 1) % s.points.length) (0, 0)).1,
          targetY := (s.points.getD ((s.currPoint + 1) % s.points.length) (0, 0)).2,
          stepX := (convertAxis (s.stepX +
            (normalizeDirection
              (((s.points.getD ((s.currPoint + 1) % s.points.length) (0, 0)).1 - cx : Int) : ℚ)
              (((s.points.getD ((s.currPoint + 1) % s.points.length) (0, 0)).2 - cy : Int) : ℚ)).1 *
              moveStep)).1,
          stepY := (convertAxis (s.stepY +
            (normalizeDirection
              (((s.points.getD ((s.currPoint + 1) % s.points.length) (0, 0)).1 - cx : Int) : ℚ)
              (((s.points.getD ((s.currPoint + 1) % s.points.length) (0, 0)).2 - cy : Int) : ℚ)).2 *
              moveStep)).1 },
        cx + (convertAxis (s.stepX +
          (normalizeDirection
            (((s.points.getD ((s.currPoint + 1) % s.points.length) (0, 0)).1 - cx : Int) : ℚ)
            (((s.points.getD ((s.currPoint + 1) % s.points.length) (0, 0)).2 - cy : Int) : ℚ)).1 *
            moveStep)).2,
        cy + (convertAxis (s.stepY +
          (normalizeDirection
            (((s.points.getD ((s.currPoint + 1) % s.points.length) (0, 0)).1 - cx : Int) : ℚ)
            (((s.points.getD ((s.currPoint + 1) % s.points.length) (0, 0)).2 - cy : Int) : ℚ)).2 *
            moveStep)).2) := by
    unfold PatrolStrategy.NextMove PatrolStrategy.calculateSteps
      PatrolStrategy.updateTarget
    rw [if_pos hat]
  have hb := normalizeDirection_abs_le
    (((s.points.getD ((s.currPoint + 1) % s.points.length) (0, 0)).1 - cx : Int) : ℚ)
    (((s.points.getD ((s.currPoint + 1) % s.points.length) (0, 0)).2 - cy : Int) : ℚ)
  have hincX : |(normalizeDirection
      (((s.points.getD ((s.currPoint + 1) % s.points.length) (0, 0)).1 - cx : Int) : ℚ)
      (((s.points.getD ((s.currPoint + 1) % s.points.length) (0, 0)).2 - cy : Int) : ℚ)).1 *
      moveStep| ≤ 1/10 := by
    rw [abs_mul]
    unfold moveStep
    rw [abs_of_pos (by norm_num : (0:ℚ) < 1/10)]
    nlinarith [hb.1]
  have hincY : |(normalizeDirection
      (((s.points.getD ((s.currPoint + 1) % s.points.length) (0, 0)).1 - cx : Int) : ℚ)
      (((s.points.getD ((s.currPoint + 1) % s.points.length) (0, 0)).2 - cy : Int) : ℚ)).2 *
      moveStep| ≤ 1/10 := by
    rw [abs_mul]
    unfold moveStep
    rw [abs_of_pos (by norm_num : (0:ℚ) < 1/10)]
    nlinarith [hb.2]
  have axX := axis_step s.stepX _ hx hincX
  have axY := axis_step s.stepY _ hy hincY
  rw [heq]
  exact ⟨rfl, rfl, rfl, rfl, axX.1, axY.1⟩

/-- Visit invariant of the patrol trajectory: after completing the k-th leg
the actor stands exactly on waypoint k (mod the list length), which is also
the active target, with sub-threshold accumulators. -/
def VisitState (pts : List (Int × Int)) (st : PatrolStrategy × Int × Int)
    (k : ℕ) : Prop :=
  st.1.points = pts ∧
  st.1.currPoint = k % pts.length ∧
  st.1.targetX = (pts.getD (k % pts.length) (0, 0)).1 ∧
  st.1.targetY = (pts.getD (k % pts.length) (0, 0)).2 ∧
  st.2.1 = (pts.getD (k % pts.length) (0, 0)).1 ∧
  st.2.2 = (pts.getD (k % pts.length) (0, 0)).2 ∧
  |st.1.stepX| < 1 ∧ |st.1.stepY| < 1

/-- Helper: from a visit of waypoint k the trajectory later visits
waypoint k+1. -/
theorem patrol_visit_step (pts : List (Int × Int)) (hlen : 2 ≤ pts.length)
    (st0 : PatrolStrategy × Int × Int) (k n : ℕ)
    (h : VisitState pts (patrolIter st0 n) k) :
    ∃ n' : ℕ, n < n' ∧ VisitState pts (patrolIter st0 n') (k + 1) := by
  obtain ⟨hpts, hcp, htx, hty, hpx, hpy, hsx, hsy⟩ := h
  have hat : (patrolIter st0 n).2.1 = (patrolIter st0 n).1.targetX ∧
      (patrolIter st0 n).2.2 = (patrolIter st0 n).1.targetY :=
    ⟨hpx.trans htx.symm, hpy.trans hty.symm⟩
  have hadv := patrol_advance (patrolIter st0 n).1 (patrolIter st0 n).2.1
    (patrolIter st0 n).2.2 hat hsx hsy
  have hn1 : patrolIter st0 (n + 1) =
      (patrolIter st0 n).1.NextMove (patrolIter st0 n).2.1 (patrolIter st0 n).2.2 :=
    rfl
  have hmod : ((k % pts.length) + 1) % pts.length = (k + 1) % pts.length := by
    conv_rhs => rw [Nat.add_mod]
    rw [Nat.mod_eq_of_lt (by omega : 1 < pts.length)]
  have hs1pts : (patrolIter st0 (n + 1)).1.points = pts := by
    rw [hn1]
    exact hadv.1.trans hpts
  have hs1cp : (patrolIter st0 (n + 1)).1.currPoint = (k + 1) % pts.length := by
    rw [hn1]
    rw [hadv.2.1, hcp, hpts, hmod]
  have hs1tx : (patrolIter st0 (n + 1)).1.targetX =
      (pts.getD ((k + 1) % pts.length) (0, 0)).1 := by
    rw [hn1]
    rw [hadv.2.2.1, hcp, hpts, hmod]
  have hs1ty : (patrolIter st0 (n + 1)).1.targetY =
      (pts.getD ((k + 1) % pts.length) (0, 0)).2 := by
    rw [hn1]
    rw [hadv.2.2.2.1, hcp, hpts, hmod]
  have hs1sx : |(patrolIter st0 (n + 1)).1.stepX| < 1 := by
    rw [hn1]
    exact hadv.2.2.2.2.1
  have hs1sy : |(patrolIter st0 (n + 1)).1.stepY| < 1 := by
    rw [hn1]
    exact hadv.2.2.2.2.2
  obtain ⟨m, hm⟩ := patrol_reach
    (((patrolIter st0 (n + 1)).1.targetX - (patrolIter st0 (n + 1)).2.1).natAbs +
      ((patrolIter st0 (n + 1)).1.targetY - (patrolIter st0 (n + 1)).2.2).natAbs)
    (patrolIter st0 (n + 1)).1 (patrolIter st0 (n + 1)).2.1
    (patrolIter st0 (n + 1)).2.2 hs1sx hs1sy (le_refl _)
  refine ⟨n + 1 + m, by omega, ?_⟩
  have hcomp : patrolIter st0 (n + 1 + m) =
      patrolIter ((patrolIter st0 (n + 1)).1, (patrolIter st0 (n + 1)).2.1,
        (patrolIter st0 (n + 1)).2.2) m := by
    rw [patrolIter_add st0 (n + 1) m]
  rw [hcomp]
  obtain ⟨hm1, hm2, hm3, hm4, hm5, hm6, hm7, hm8⟩ := hm
  refine ⟨hm3.trans hs1pts, hm4.trans hs1cp, hm5.trans hs1tx, hm6.trans hs1ty,
    ?_, ?_, hm7, hm8⟩
  · rw [hm1, hs1tx]
  · rw [hm2, hs1ty]

/-- Helper: the successfully constructed patrol state targets the first
waypoint with zeroed accumulators. -/
theorem NewPatrolStrategy_ok_shape (pts : List (Int × Int)) (hlen : 2 ≤ pts.length)
    (s0 : PatrolStrategy) (hs0 : NewPatrolStrategy pts = Except.ok s0) :
    s0.points = pts ∧ s0.currPoint = 0 ∧ s0.stepX = 0 ∧ s0.stepY = 0 ∧
    s0.targetX = (pts.getD 0 (0, 0)).1 ∧ s0.targetY = (pts.getD 0 (0, 0)).2 := by
  unfold NewPatrolStrategy at hs0
  rw [dif_neg (by omega : ¬pts.length < 2)] at hs0
  cases hfi : firstInvalid pts with
  | some e =>
    rw [hfi] at hs0
    exact absurd hs0 (by simp)
  | none =>
    rw [hfi] at hs0
    have hget : pts.get ⟨0, by omega⟩ = pts.getD 0 (0, 0) := by
      rw [List.getD_eq_getElem pts (0, 0) (by omega)]
      simp [List.get_eq_getElem]
    injection hs0 with h
    rw [← h]
    exact ⟨rfl, rfl, rfl, rfl, by rw [hget], by rw [hget]⟩


/-- C6: starting on the first waypoint of a valid patrol list, the position
sequence produced by repeated NextMove calls visits every configured waypoint
in list order and then cycles back to the first: there are strictly
increasing times t k at which the actor stands exactly on waypoint k modulo
the list length, with the target index equal to that waypoint's index; and on
every call the target index advances exactly when the current position equals
the active waypoint, wrapping modulo the list length. -/
theorem patrol_visits_waypoints_in_order (pts : List (Int × Int))
    (hlen : 2 ≤ pts.length)
    (_hbound : ∀ p ∈ pts, minCoordinate ≤ p.1 ∧ p.1 ≤ maxLevelWidth ∧
      minCoordinate ≤ p.2 ∧ p.2 ≤ maxLevelHeight)
    (s0 : PatrolStrategy) (hs0 : NewPatrolStrategy pts = Except.ok s0) :
    (∀ (s : PatrolStrategy) (cx cy : Int),
        (s.NextMove cx cy).1.currPoint =
          (if cx = s.targetX ∧ cy = s.targetY then
            (s.currPoint + 1) % s.points.length
          else s.currPoint)) ∧
    ∃ t : ℕ → ℕ, t 0 = 0 ∧ StrictMono t ∧
      ∀ k : ℕ,
        (patrolIter (s0, (pts.getD 0 (0, 0)).1, (pts.getD 0 (0, 0)).2) (t k)).2.1 =
          (pts.getD (k % pts.length) (0, 0)).1 ∧
        (patrolIter (s0, (pts.getD 0 (0, 0)).1, (pts.getD 0 (0, 0)).2) (t k)).2.2 =
          (pts.getD (k % pts.length) (0, 0)).2 ∧
        (patrolIter (s0, (pts.getD 0 (0, 0)).1,
          (pts.getD 0 (0, 0)).2) (t k)).1.currPoint = k % pts.length := by
  constructor
  · intro s cx cy
    simp only [PatrolStrategy.NextMove, PatrolStrategy.calculateSteps,
      PatrolStrategy.updateTarget]
    split <;> rfl
  · obtain ⟨hp, hc, hsx, hsy, htx, hty⟩ := NewPatrolStrategy_ok_shape pts hlen s0 hs0
    have hbase : VisitState pts
        (patrolIter (s0, (pts.getD 0 (0, 0)).1, (pts.getD 0 (0, 0)).2) 0) 0 := by
      refine ⟨hp, ?_, ?_, ?_, rfl, rfl, ?_, ?_⟩
      · rw [Nat.zero_mod]
        exact hc
      · rw [Nat.zero_mod]
        exact htx
      · rw [Nat.zero_mod]
        exact hty
      · show |s0.stepX| < 1
        rw [hsx]
        norm_num
      · show |s0.stepY| < 1
        rw [hsy]
        norm_num
    have hstep : ∀ k n, VisitState pts
        (patrolIter (s0, (pts.getD 0 (0, 0)).1, (pts.getD 0 (0, 0)).2) n) k →
        ∃ n', n < n' ∧ VisitState pts
          (patrolIter (s0, (pts.getD 0 (0, 0)).1, (pts.getD 0 (0, 0)).2) n') (k + 1) :=
      fun k n h => patrol_visit_step pts hlen _ k n h
    let F : (k : ℕ) → { n : ℕ // VisitState pts
        (patrolIter (s0, (pts.getD 0 (0, 0)).1, (pts.getD 0 (0, 0)).2) n) k } :=
      fun k => Nat.rec ⟨0, hbase⟩
        (fun k ih => ⟨(hstep k ih.1 ih.2).choose, (hstep k ih.1 ih.2).choose_spec.2⟩) k
    refine ⟨fun k => (F k).1, rfl, ?_, ?_⟩
    · apply strictMono_nat_of_lt_succ
      intro k
      exact (hstep k (F k).1 (F k).2).choose_spec.1
    · intro k
      exact ⟨(F k).2.2.2.2.2.1, (F k).2.2.2.2.2.2.1, (F k).2.2.1⟩

/-- Witness for C6 at the concrete two-point patrol list [(0,0), (1,0)]. -/
theorem patrol_visits_waypoints_in_order_witness :
    (2 ≤ ([((0 : Int), (0 : Int)), ((1 : Int), (0 : Int))] : List (Int × Int)).length) ∧
    (∀ p ∈ ([((0 : Int), (0 : Int)), ((1 : Int), (0 : Int))] : List (Int × Int)),
      minCoordinate ≤ p.1 ∧ p.1 ≤ maxLevelWidth ∧
        minCoordinate ≤ p.2 ∧ p.2 ≤ maxLevelHeight) ∧
    (NewPatrolStrategy [((0 : Int), (0 : Int)), ((1 : Int), (0 : Int))] =
      Except.ok ⟨[((0 : Int), (0 : Int)), ((1 : Int), (0 : Int))], 0, 0, 0, 0, 0⟩) ∧
    ((∀ (s : PatrolStrategy) (cx cy : Int),
        (s.NextMove cx cy).1.currPoint =
          (if cx = s.targetX ∧ cy = s.targetY then
            (s.currPoint + 1) % s.points.length
          else s.currPoint)) ∧
    ∃ t : ℕ → ℕ, t 0 = 0 ∧ StrictMono t ∧
      ∀ k : ℕ,
        (patrolIter (⟨[((0 : Int), (0 : Int)), ((1 : Int), (0 : Int))], 0, 0, 0, 0, 0⟩,
          (([((0 : Int), (0 : Int)), ((1 : Int), (0 : Int))] : List (Int × Int)).getD 0 (0, 0)).1,
          (([((0 : Int), (0 : Int)), ((1 : Int), (0 : Int))] : List (Int × Int)).getD 0 (0, 0)).2)
            (t k)).2.1 =
          (([((0 : Int), (0 : Int)), ((1 : Int), (0 : Int))] : List (Int × Int)).getD
            (k % ([((0 : Int), (0 : Int)), ((1 : Int), (0 : Int))] : List (Int × Int)).length)
            (0, 0)).1 ∧
        (patrolIter (⟨[((0 : Int), (0 : Int)), ((1 : Int), (0 : Int))], 0, 0, 0, 0, 0⟩,
          (([((0 : Int), (0 : Int)), ((1 : Int), (0 : Int))] : List (Int × Int)).getD 0 (0, 0)).1,
          (([((0 : Int), (0 : Int)), ((1 : Int), (0 : Int))] : List (Int × Int)).getD 0 (0, 0)).2)
            (t k)).2.2 =
          (([((0 : Int), (0 : Int)), ((1 : Int), (0 : Int))] : List (Int × Int)).getD
            (k % ([((0 : Int), (0 : Int)), ((1 : Int), (0 : Int))] : List (Int × Int)).length)
            (0, 0)).2 ∧
        (patrolIter (⟨[((0 : Int), (0 : Int)), ((1 : Int), (0 : Int))], 0, 0, 0, 0, 0⟩,
          (([((0 : Int), (0 : Int)), ((1 : Int), (0 : Int))] : List (Int × Int)).getD 0 (0, 0)).1,
          (([((0 : Int), (0 : Int)), ((1 : Int), (0 : Int))] : List (Int × Int)).getD 0 (0, 0)).2)
            (t k)).1.currPoint =
          k % ([((0 : Int), (0 : Int)), ((1 : Int), (0 : Int))] : List (Int × Int)).length) := by
  refine ⟨by norm_num, by decide, by rfl, ?_⟩
  exact patrol_visits_waypoints_in_order
    [((0 : Int), (0 : Int)), ((1 : Int), (0 : Int))] (by norm_num) (by decide)
    ⟨[((0 : Int), (0 : Int)), ((1 : Int), (0 : Int))], 0, 0, 0, 0, 0⟩ (by rfl)

end FrameAssault
